import Mathlib

/-!
Verification development for the wechat message-capture service
(source file callback_group.py). The Python pipeline is shallowly
embedded: pure computations become Lean functions, the filesystem
becomes an explicit record of directories and file contents, and the
fallible OS calls (makedirs, open, write) are driven by an explicit
failure oracle carried in a World value. Library behaviour that the
source relies on is modelled where noted: ElementTree parsing outcomes
become an explicit sum, and the csv module writer and reader are
modelled at character level with the default dialect (comma delimiter,
double-quote quoting, CRLF terminator, minimal quoting).
-/

namespace WechatRobot

/-- The inbound message shape, mirroring the pydantic model Msg. -/
structure Msg where
  id : Int
  ts : Int
  sign : String
  type : Int
  xml : String
  sender : String
  roomid : String
  content : String
  thumb : String
  extra : String
  is_at : Bool
  is_self : Bool
  is_group : Bool
deriving DecidableEq

/-- Process configuration, mirroring class Config. The accepted type
codes are kept as a list (only membership is ever used) and the room
mapping as an association list with unique keys. -/
structure Config where
  accepted_types : List Int
  chatroom_id_to_name : List (String × String)
  log_level : String
  host : String
  port : Int
  file_encoding : String
  file_write_mode : String
  date_format : String
deriving DecidableEq

/-- A local wall-clock timestamp, the fields of datetime.now() that the
source reads through strftime. -/
structure DateTime where
  year : Nat
  month : Nat
  day : Nat
  hour : Nat
  minute : Nat
  second : Nat
deriving DecidableEq

/-- Decimal digit character for n below ten. -/
def digitChar (n : Nat) : Char :=
  if n = 0 then '0' else if n = 1 then '1' else if n = 2 then '2'
  else if n = 3 then '3' else if n = 4 then '4' else if n = 5 then '5'
  else if n = 6 then '6' else if n = 7 then '7' else if n = 8 then '8'
  else '9'

/-- Two-digit zero-padded decimal, the model of the strftime fields
such as month, day, and hour, which are always below 100. -/
def pad2 (n : Nat) : String :=
  String.mk [digitChar (n / 10 % 10), digitChar (n % 10)]

/-- Four-digit zero-padded decimal, the model of the strftime year
field for the four-digit years produced by datetime.now(). -/
def pad4 (n : Nat) : String :=
  String.mk [digitChar (n / 1000 % 10), digitChar (n / 100 % 10),
             digitChar (n / 10 % 10), digitChar (n % 10)]

/-- Model of current_time.strftime with pattern year-month-day. -/
def strftimeYmd (t : DateTime) : String :=
  pad4 t.year ++ pad2 t.month ++ pad2 t.day

/-- Model of current_time.strftime with pattern year-month-day-hour. -/
def strftimeYmdH (t : DateTime) : String :=
  pad4 t.year ++ pad2 t.month ++ pad2 t.day ++ pad2 t.hour

/-- The folder_path string built in save_message_to_csv. -/
def folderPath (room_name : String) (now : DateTime) : String :=
  "./" ++ room_name ++ "/" ++ strftimeYmd now ++ "/"

/-- The file_name string built in save_message_to_csv. -/
def fileName (room_name : String) (now : DateTime) : String :=
  folderPath room_name now ++ "messages_" ++ strftimeYmdH now ++ ".csv"

/-- An ElementTree element: tag, optional text (absent text is the
Python value None), and the list of child elements in document order. -/
structure XMLElement where
  tag : String
  text : Option String
  children : List XMLElement

/-- Model of root.find applied to the path that matches the first
descendant named title in document order (preorder), at any depth,
excluding the root element itself. The argument is the list of
elements still to visit, initially the children of the root. -/
def findTitleList : List XMLElement → Option XMLElement
  | [] => none
  | XMLElement.mk tag text children :: rest =>
    if tag = "title" then some (XMLElement.mk tag text children)
    else
      match findTitleList children with
      | some t => some t
      | none => findTitleList rest
termination_by es => sizeOf es

/-- parse_xml_content from the source. The ElementTree parse outcome
is passed explicitly: an error value models a ParseError raised by
ET.fromstring, an ok value carries the parsed root element. On a
found element the function returns the text of that element, a
Python string or None; the Lean value none models the Python None. -/
def parse_xml_content : Except Unit XMLElement → Option String
  | Except.error _ => some "XML解析错误"
  | Except.ok root =>
    match findTitleList root.children with
    | some t => t.text
    | none => some "无标题"

/-- Python truthiness of a str-or-None value: None and the empty
string are falsy, every other string is truthy. -/
def pyTruthy : Option String → Bool
  | none => false
  | some s => s != ""

/-! The csv module, default dialect

The csv.writer and csv.reader of the standard library are modelled at
character level: comma delimiter, double-quote quote character, CRLF
record terminator, minimal quoting with quote doubling. The writer
quotes a field exactly when it contains the delimiter, the quote
character, or a terminator character, and additionally quotes a lone
empty field so that the record is not mistaken for a blank line. -/

/-- A character forcing the writer to quote the field. -/
def isSpecial (c : Char) : Bool :=
  c == ',' || c == '"' || c == '\r' || c == '\n'

/-- Quote doubling inside a quoted field. -/
def escq : List Char → List Char
  | [] => []
  | c :: cs => if c = '"' then '"' :: '"' :: escq cs else c :: escq cs

/-- Whether minimal quoting must quote this field. -/
def needsQuote (f : List Char) : Bool := f.any isSpecial

/-- The characters the writer emits for one field. -/
def fieldChars (f : List Char) : List Char :=
  if needsQuote f then '"' :: (escq f ++ ['"']) else f

/-- The comma-separated field characters of one record. -/
def rowBody : List (List Char) → List Char
  | [] => []
  | [f] => fieldChars f
  | f :: fs => fieldChars f ++ ',' :: rowBody fs

/-- The characters the writer emits for one record, terminator
included. A record holding exactly one empty field is written as a
quoted empty field, matching the writer special case. -/
def rowChars (r : List (List Char)) : List Char :=
  (if r = [[]] then ['"', '"'] else rowBody r) ++ ['\r', '\n']

/-- writer.writerow: the text appended to the file for one row. -/
def csvRow (fields : List String) : String :=
  String.mk (rowChars (fields.map String.data))

/-- Whether the character stream starts with the CRLF terminator. -/
def startsRN (s : List Char) : Bool :=
  s.head? == some '\r' && s.tail.head? == some '\n'

/-- Reader, quoted field body: consumes up to and including the
closing quote, undoing quote doubling. Fuel-driven so that every
recursion is structural; any fuel of at least the input length plus
one behaves like the untrimmed reader. -/
def parseQ : Nat → List Char → Option (List Char × List Char)
  | 0, _ => none
  | _ + 1, [] => none
  | fuel + 1, c :: rest =>
    if c = '"' then
      if rest.head? = some '"' then
        (parseQ fuel rest.tail).map (fun p => ('"' :: p.1, p.2))
      else some ([], rest)
    else
      (parseQ fuel rest).map (fun p => (c :: p.1, p.2))

/-- Reader, unquoted field: consumes up to the next delimiter or
terminator character, leaving it in the stream. -/
def parseU : Nat → List Char → List Char × List Char
  | 0, s => ([], s)
  | _ + 1, [] => ([], [])
  | fuel + 1, c :: rest =>
    if c = ',' ∨ c = '\r' ∨ c = '\n' then ([], c :: rest)
    else
      let p := parseU fuel rest
      (c :: p.1, p.2)

/-- Reader, one field: quoted when it starts with a quote. -/
def parseField (fuel : Nat) (s : List Char) : Option (List Char × List Char) :=
  if s.head? = some '"' then parseQ fuel s.tail else some (parseU fuel s)

/-- Reader, the fields of one record up to and including CRLF. -/
def parseFields : Nat → List Char → Option (List (List Char) × List Char)
  | 0, _ => none
  | fuel + 1, s =>
    match parseField (fuel + 1) s with
    | none => none
    | some p =>
      if p.2.head? = some ',' then
        (parseFields fuel p.2.tail).map (fun q => (p.1 :: q.1, q.2))
      else if startsRN p.2 then some ([p.1], p.2.drop 2)
      else none

/-- Reader, all records of the stream; a bare CRLF is a blank line
and yields the empty record, matching csv.reader. -/
def parseRecords : Nat → List Char → Option (List (List (List Char)))
  | _, [] => some []
  | 0, _ => none
  | fuel + 1, s =>
    if startsRN s then
      (parseRecords fuel (s.drop 2)).map (fun rs => ([] : List (List Char)) :: rs)
    else
      match parseFields (fuel + 1) s with
      | none => none
      | some p => (parseRecords fuel p.2).map (fun rs => p.1 :: rs)

/-- csv.reader over a whole file content. The fuel argument of the
character-level reader is set high enough for any input, as proved by
the round-trip development below. -/
def csvParse (s : String) : Option (List (List String)) :=
  (parseRecords (2 * s.data.length + 2) s.data).map
    (fun rs => rs.map (fun r => r.map String.mk))

/-! Filesystem model and FileManager -/

/-- Filesystem state: the set of directories that exist and the text
content of each existing file. -/
structure FS where
  dirs : List String
  files : List (String × String)
deriving DecidableEq

/-- Store a file content under a path, replacing an existing entry. -/
def setFile : List (String × String) → String → String → List (String × String)
  | [], p, c => [(p, c)]
  | (q, d) :: rest, p, c =>
    if q = p then (p, c) :: rest else (q, d) :: setFile rest p c

/-- FileManager.write_to_csv. The file is opened with the configured
mode, creating it when absent; in truncate mode the previous content
is discarded, otherwise the position is at the end. The header row is
written exactly when the position after opening is zero, then the
data row is appended. Encoding is abstracted away: contents are text. -/
def write_to_csv (mode : String) (fs : FS) (file_name : String)
    (header data : List String) : FS :=
  let existing := (fs.files.lookup file_name).getD ""
  let content0 := if mode = "w" then "" else existing
  let content1 := if content0 = "" then content0 ++ csvRow header else content0
  let content2 := content1 ++ csvRow data
  { fs with files := setFile fs.files file_name content2 }

/-! The pipeline -/

/-- A storage failure raised while opening or writing the target file,
one constructor per except clause of save_message_to_csv. -/
inductive WriteFailure
  | fileNotFound
  | csvError (msg : String)
  | other (msg : String)
deriving DecidableEq

/-- The log line each except clause of save_message_to_csv emits. -/
def failureLog : WriteFailure → String
  | WriteFailure.fileNotFound => "[ERROR] File not found"
  | WriteFailure.csvError m => "[ERROR] CSV error: " ++ m
  | WriteFailure.other m => "[ERROR] An error occurred: " ++ m

/-- One invocation environment: the filesystem plus a failure oracle
deciding whether os.makedirs and the open-and-write step raise. -/
structure World where
  fs : FS
  makedirsError : Option String
  writeError : Option WriteFailure
deriving DecidableEq

/-- Observable outcome of save_message_to_csv: early return on an
ineligible message, the saved log line, or a caught exception turned
into an error log line. The function itself never raises: every
except clause swallows the exception and returns normally. -/
inductive SaveOutcome
  | skipped
  | saved
  | errorLogged (msg : String)
deriving DecidableEq

/-- save_message_to_csv. Logging is an external collaborator and is
represented only through the returned outcome. The ElementTree parse
of the message content is supplied as an oracle so that the title
extraction path stays explicit. -/
def save_message_to_csv (cfg : Config) (parse : String → Except Unit XMLElement)
    (now : DateTime) (w : World) (message : Msg) : SaveOutcome × FS :=
  if message.type ∉ cfg.accepted_types ∨
      cfg.chatroom_id_to_name.lookup message.roomid = none then
    (SaveOutcome.skipped, w.fs)
  else
    let room_name := (cfg.chatroom_id_to_name.lookup message.roomid).getD ""
    let folder_path := folderPath room_name now
    match (if folder_path ∈ w.fs.dirs then none else w.makedirsError) with
    | some e => (SaveOutcome.errorLogged ("[ERROR] An error occurred: " ++ e), w.fs)
    | none =>
      let fs1 : FS :=
        if folder_path ∈ w.fs.dirs then w.fs
        else { w.fs with dirs := folder_path :: w.fs.dirs }
      let file_name := fileName room_name now
      let header :=
        if ¬(message.type = 49 ∧ message.is_group = true) then
          ["type", "sender", "content", "extra"]
        else ["type", "sender", "title", "content", "extra"]
      let title_content : Option String :=
        if message.type = 49 ∧ message.is_group = true then
          parse_xml_content (parse message.content)
        else some ""
      let data := [toString message.type, message.sender,
                   if pyTruthy title_content then title_content.getD ""
                   else message.content,
                   message.extra]
      match w.writeError with
      | some f => (SaveOutcome.errorLogged (failureLog f), fs1)
      | none => (SaveOutcome.saved, write_to_csv cfg.file_write_mode fs1 file_name header data)

/-- The JSON body msg_cb returns on its normal path. -/
structure CbResponse where
  status : Int
  message : String
deriving DecidableEq

/-- Result of the HTTP handler: the normal body, or an HTTPException
with status code and detail. -/
inductive CbResult
  | ok (body : CbResponse)
  | httpException (statusCode : Int) (detail : String)
deriving DecidableEq

/-- msg_cb. Because save_message_to_csv catches every exception
internally and returns normally, the except clause of msg_cb, which
would raise HTTPException with status 500, is never taken: the
handler always answers with the fixed success body. -/
def msg_cb (cfg : Config) (parse : String → Except Unit XMLElement)
    (now : DateTime) (w : World) (message : Msg) : CbResult × FS :=
  let r := save_message_to_csv cfg parse now w message
  (CbResult.ok { status := 0, message := "成功" }, r.2)

/-! Concurrency model for two overlapping appends

Two handlers for the same room and hour run as asyncio coroutines,
so control can switch between them exactly at their await points:
obtaining the opened file with its position, writing the header, and
writing the data row. Writes land at the end of the current file
content, the append semantics of mode a. -/

/-- Local state of one in-flight write_to_csv: a program counter and
the file position observed when the file was opened. -/
structure CoSt where
  pc : Nat
  told : Nat
deriving DecidableEq

/-- One atomic step of an in-flight write_to_csv invocation:
open-and-tell, then conditional header write, then data write. -/
def stepCo (content : String) (st : CoSt) (header data : List String) :
    String × CoSt :=
  match st.pc with
  | 0 => (content, { pc := 1, told := content.length })
  | 1 => ((if st.told = 0 then content ++ csvRow header else content),
          { pc := 2, told := st.told })
  | 2 => (content ++ csvRow data, { pc := 3, told := st.told })
  | _ => (content, st)

/-- Run two concurrent write_to_csv invocations A and B on one shared
file under a schedule: true steps A, false steps B. -/
def runSched : List Bool → String → CoSt → CoSt →
    List String → List String → List String → List String → String
  | [], content, _, _, _, _, _, _ => content
  | b :: rest, content, sA, sB, hA, dA, hB, dB =>
    if b then
      let p := stepCo content sA hA dA
      runSched rest p.1 p.2 sB hA dA hB dB
    else
      let p := stepCo content sB hB dB
      runSched rest p.1 sA p.2 hA dA hB dB

/-! Round-trip development for the csv model -/

theorem escq_length (f : List Char) : f.length ≤ (escq f).length := by
  induction f with
  | nil => simp [escq]
  | cons c cs ih =>
    by_cases h : c = '"' <;> simp [escq, h] <;> omega

theorem fieldChars_length (f : List Char) : f.length ≤ (fieldChars f).length := by
  by_cases h : needsQuote f
  · have := escq_length f
    simp [fieldChars, h]
    omega
  · simp [fieldChars, h]

theorem clean_of_not_needsQuote {f : List Char} (h : ¬ needsQuote f = true) :
    ∀ c ∈ f, isSpecial c = false := by
  intro c hc
  by_contra hcs
  have hct : isSpecial c = true := by
    cases hx : isSpecial c
    · exact absurd hx hcs
    · rfl
  exact h (by simp only [needsQuote, List.any_eq_true]; exact ⟨c, hc, hct⟩)

theorem not_special_fields {c : Char} (h : isSpecial c = false) :
    c ≠ ',' ∧ c ≠ '"' ∧ c ≠ '\r' ∧ c ≠ '\n' := by
  simp only [isSpecial, Bool.or_eq_false_iff, beq_eq_false_iff_ne, ne_eq] at h
  exact ⟨h.1.1.1, h.1.1.2, h.1.2, h.2⟩

theorem parseQ_inv (f : List Char) : ∀ (fuel : Nat) (rest : List Char),
    rest.head? ≠ some '"' → f.length + 1 ≤ fuel →
    parseQ fuel (escq f ++ '"' :: rest) = some (f, rest) := by
  induction f with
  | nil =>
    intro fuel rest hr hf
    obtain ⟨k, rfl⟩ : ∃ k, fuel = k + 1 := ⟨fuel - 1, by omega⟩
    simp [escq, parseQ, hr]
  | cons c cs ih =>
    intro fuel rest hr hf
    obtain ⟨k, rfl⟩ : ∃ k, fuel = k + 1 := ⟨fuel - 1, by omega⟩
    have hrec := ih k rest hr (by simp at hf; omega)
    by_cases h : c = '"'
    · subst h
      have hinput : escq ('"' :: cs) ++ '"' :: rest
          = '"' :: '"' :: (escq cs ++ '"' :: rest) := by simp [escq]
      rw [hinput]
      simp [parseQ, hrec]
    · have hinput : escq (c :: cs) ++ '"' :: rest
          = c :: (escq cs ++ '"' :: rest) := by simp [escq, h]
      rw [hinput]
      simp [parseQ, h, hrec]

theorem parseU_inv (f : List Char) : ∀ (fuel : Nat) (rest : List Char),
    (∀ c ∈ f, isSpecial c = false) →
    (rest.head? = some ',' ∨ rest.head? = some '\r') →
    f.length + 1 ≤ fuel →
    parseU fuel (f ++ rest) = (f, rest) := by
  induction f with
  | nil =>
    intro fuel rest _ hr hf
    obtain ⟨k, rfl⟩ : ∃ k, fuel = k + 1 := ⟨fuel - 1, by omega⟩
    cases rest with
    | nil => simp at hr
    | cons c r =>
      have hc : c = ',' ∨ c = '\r' := by
        rcases hr with h | h <;> simp at h <;> simp [h]
      simp only [List.nil_append, parseU]
      rw [if_pos (by tauto)]
  | cons c cs ih =>
    intro fuel rest hclean hr hf
    obtain ⟨k, rfl⟩ : ∃ k, fuel = k + 1 := ⟨fuel - 1, by omega⟩
    have hc := not_special_fields (hclean c (by simp))
    have hrec := ih k rest (fun d hd => hclean d (by simp [hd])) hr
      (by simp at hf; omega)
    simp [parseU, hc.1, hc.2.2.1, hc.2.2.2, hrec]

theorem parseField_inv (f rest : List Char) (fuel : Nat)
    (hr : rest.head? = some ',' ∨ rest.head? = some '\r')
    (hf : f.length + 1 ≤ fuel) :
    parseField fuel (fieldChars f ++ rest) = some (f, rest) := by
  by_cases hq : needsQuote f
  · have hshape : fieldChars f ++ rest = '"' :: (escq f ++ '"' :: rest) := by
      simp [fieldChars, hq]
    rw [hshape, parseField]
    simp only [List.head?_cons, List.tail_cons, if_pos rfl]
    exact parseQ_inv f fuel rest
      (by rcases hr with h | h <;> rw [h] <;> simp) hf
  · have hshape : fieldChars f = f := by simp [fieldChars, hq]
    rw [hshape, parseField]
    have hhead : (f ++ rest).head? ≠ some '"' := by
      cases f with
      | nil => rcases hr with h | h <;> simp [h]
      | cons c cs =>
        have hc := not_special_fields (clean_of_not_needsQuote hq c (by simp))
        simp [hc.2.1]
    rw [if_neg hhead,
      parseU_inv f fuel rest (clean_of_not_needsQuote hq) hr hf]

theorem parseFields_inv (fs : List (List Char)) : ∀ (fuel : Nat) (rest : List Char),
    fs ≠ [] → (rowBody fs).length + fs.length + 1 ≤ fuel →
    parseFields fuel (rowBody fs ++ '\r' :: '\n' :: rest) = some (fs, rest) := by
  induction fs with
  | nil => intro _ _ h _; exact absurd rfl h
  | cons f fs ih =>
    intro fuel rest _ hf
    obtain ⟨k, rfl⟩ : ∃ k, fuel = k + 1 := ⟨fuel - 1, by omega⟩
    cases fs with
    | nil =>
      have hlen : f.length + 1 ≤ k + 1 := by
        have := fieldChars_length f
        simp [rowBody] at hf
        omega
      have h1 := parseField_inv f ('\r' :: '\n' :: rest) (k + 1) (Or.inr rfl) hlen
      simp only [rowBody] at h1 ⊢
      simp only [parseFields, h1]
      simp [startsRN]
    | cons g gs =>
      have hrw : rowBody (f :: g :: gs) ++ '\r' :: '\n' :: rest
          = fieldChars f ++ (',' :: (rowBody (g :: gs) ++ '\r' :: '\n' :: rest)) := by
        simp [rowBody]
      have hlen : f.length + 1 ≤ k + 1 := by
        have := fieldChars_length f
        simp [rowBody] at hf
        omega
      have h1 := parseField_inv f (',' :: (rowBody (g :: gs) ++ '\r' :: '\n' :: rest))
        (k + 1) (Or.inl rfl) hlen
      rw [hrw]
      simp only [parseFields, h1]
      simp only [List.head?_cons, if_pos rfl, List.tail_cons]
      rw [ih k rest (by simp)
        (by simp only [List.length_cons]; simp [rowBody] at hf; omega)]
      rfl

/-- Fuel needed by the record reader for a list of written records. -/
def rowsFuel : List (List (List Char)) → Nat
  | [] => 0
  | r :: rs => (rowChars r).length + r.length + 1 + rowsFuel rs

theorem rowBody_ge (r : List (List Char)) : r.length ≤ (rowBody r).length + 1 := by
  induction r with
  | nil => simp [rowBody]
  | cons f fs ih =>
    cases fs with
    | nil => simp [rowBody]
    | cons g gs =>
      simp only [rowBody, List.length_append, List.length_cons] at ih ⊢
      omega

theorem rowChars_ge (r : List (List Char)) : r.length + 1 ≤ (rowChars r).length := by
  by_cases h : r = [[]]
  · subst h; decide
  · have := rowBody_ge r
    simp [rowChars, h]
    omega

theorem rowsFuel_le (rws : List (List (List Char))) :
    rowsFuel rws ≤ 2 * (List.flatten (rws.map rowChars)).length := by
  induction rws with
  | nil => simp [rowsFuel]
  | cons r rs ih =>
    have := rowChars_ge r
    simp only [rowsFuel, List.map_cons, List.flatten_cons, List.length_append]
    omega

theorem startsRN_cons_false {c : Char} (s : List Char) (hc : c ≠ '\r') :
    startsRN (c :: s) = false := by
  simp [startsRN, hc]

theorem rowBody_shape (r : List (List Char)) (rest : List Char)
    (h1 : r ≠ []) (h2 : r ≠ [[]]) :
    ∃ c s, rowBody r ++ rest = c :: s ∧ c ≠ '\r' := by
  cases r with
  | nil => exact absurd rfl h1
  | cons f fs =>
    cases fs with
    | nil =>
      have hf : f ≠ [] := by
        intro h; exact h2 (by rw [h])
      by_cases hq : needsQuote f
      · exact ⟨'"', escq f ++ ['"'] ++ rest,
          by simp [rowBody, fieldChars, hq], by decide⟩
      · cases f with
        | nil => exact absurd rfl hf
        | cons c cs =>
          have hc := not_special_fields (clean_of_not_needsQuote hq c (by simp))
          exact ⟨c, cs ++ rest, by simp [rowBody, fieldChars, hq], hc.2.2.1⟩
    | cons g gs =>
      cases hfc : fieldChars f with
      | nil =>
        exact ⟨',', rowBody (g :: gs) ++ rest, by simp [rowBody, hfc], by decide⟩
      | cons c cs =>
        have hc : c ≠ '\r' := by
          by_cases hq : needsQuote f
          · have hx : fieldChars f = '"' :: (escq f ++ ['"']) := by
              simp [fieldChars, hq]
            rw [hx] at hfc
            injection hfc with hh _
            rw [← hh]; decide
          · have hx : fieldChars f = f := by simp [fieldChars, hq]
            rw [hx] at hfc
            have := not_special_fields
              (clean_of_not_needsQuote hq c (by rw [hfc]; simp))
            exact this.2.2.1
        exact ⟨c, cs ++ (',' :: rowBody (g :: gs)) ++ rest,
          by simp [rowBody, hfc], hc⟩

theorem parseRecords_inv (rows : List (List (List Char))) : ∀ (fuel : Nat),
    rowsFuel rows ≤ fuel →
    parseRecords fuel (List.flatten (rows.map rowChars)) = some rows := by
  induction rows with
  | nil => intro fuel _; cases fuel <;> simp [parseRecords]
  | cons r rs ih =>
    intro fuel hf
    obtain ⟨k, rfl⟩ : ∃ k, fuel = k + 1 := by
      refine ⟨fuel - 1, ?_⟩
      have := rowChars_ge r
      simp [rowsFuel] at hf
      omega
    by_cases hr0 : r = []
    · subst hr0
      have hchars : rowChars [] = ['\r', '\n'] := by decide
      simp only [List.map_cons, List.flatten_cons, hchars, List.cons_append,
        List.nil_append]
      simp only [parseRecords]
      rw [if_pos (by simp [startsRN])]
      simp only [List.drop_succ_cons, List.drop_zero]
      rw [ih k (by simp [rowsFuel] at hf; omega)]
      rfl
    by_cases hr1 : r = [[]]
    · subst hr1
      have hchars : rowChars [[]] = ['"', '"', '\r', '\n'] := by decide
      have hrec := ih k (by simp [rowsFuel] at hf; omega)
      simp only [List.map_cons, List.flatten_cons, hchars, List.cons_append,
        List.nil_append]
      simp [parseRecords, parseFields, parseField, parseQ, startsRN, hrec]
    · have hchars : rowChars r = rowBody r ++ ['\r', '\n'] := by
        simp [rowChars, hr1]
      have hjoin : List.flatten ((r :: rs).map rowChars)
          = rowBody r ++ ('\r' :: '\n' :: List.flatten (rs.map rowChars)) := by
        simp [hchars]
      obtain ⟨c, s, hcs, hc⟩ :=
        rowBody_shape r ('\r' :: '\n' :: List.flatten (rs.map rowChars)) hr0 hr1
      rw [hjoin, hcs]
      simp only [parseRecords]
      rw [if_neg (by simp [startsRN_cons_false s hc])]
      have hfields : parseFields (k + 1) (c :: s)
          = some (r, List.flatten (rs.map rowChars)) := by
        rw [← hcs]
        refine parseFields_inv r (k + 1) _ hr0 ?_
        have hlen : (rowChars r).length = (rowBody r).length + 2 := by
          simp [rowChars, hr1]
        simp [rowsFuel, hlen] at hf
        omega
      rw [hfields]
      have hrec := ih k (by simp [rowsFuel] at hf; omega)
      simp [hrec]

/-- Concatenation of the texts appended for a list of rows. -/
def strJoinRows : List String → String
  | [] => ""
  | s :: rest => s ++ strJoinRows rest

theorem strJoinRows_data (l : List String) :
    (strJoinRows l).data = List.flatten (l.map String.data) := by
  induction l with
  | nil => rfl
  | cons s rest ih => simp [strJoinRows, ih]

theorem string_mk_data (s : String) : String.mk s.data = s := rfl

theorem map_mk_data (r : List String) : (r.map String.data).map String.mk = r := by
  induction r with
  | nil => rfl
  | cons s t ih => simp [ih, string_mk_data]

theorem maps_mk_data (rows : List (List String)) :
    (rows.map (fun r => r.map String.data)).map (fun r => r.map String.mk) = rows := by
  induction rows with
  | nil => rfl
  | cons r t ih =>
    simp only [List.map_cons]
    rw [map_mk_data r, ih]

theorem string_eq_of_data {a b : String} (h : a.data = b.data) : a = b := by
  cases a; cases b; exact congrArg String.mk h

theorem str_append_empty (s : String) : s ++ "" = s :=
  string_eq_of_data (by simp)

theorem str_empty_append (s : String) : "" ++ s = s :=
  string_eq_of_data (by simp)

theorem str_append_assoc (a b c : String) : (a ++ b) ++ c = a ++ (b ++ c) :=
  string_eq_of_data (by simp [String.data_append])

theorem csvRow_length_ne (r : List String) : ¬ (csvRow r).length = 0 := by
  show ¬ (rowChars (r.map String.data)).length = 0
  simp only [rowChars, List.length_append, List.length_cons, List.length_nil]
  omega

theorem append_csvRow_length_ne (x : String) (r : List String) :
    ¬ (x ++ csvRow r).length = 0 := by
  simp only [String.length_append]
  have := csvRow_length_ne r
  omega

theorem append_csvRow_ne_empty (x : String) (r : List String) :
    x ++ csvRow r ≠ "" := by
  intro h
  exact append_csvRow_length_ne x r (by rw [h]; rfl)

theorem lookup_setFile (l : List (String × String)) (p c : String) :
    (setFile l p c).lookup p = some c := by
  induction l with
  | nil => simp [setFile, List.lookup]
  | cons qd rest ih =>
    obtain ⟨q, d⟩ := qd
    by_cases h : q = p
    · simp [setFile, h, List.lookup]
    · simp only [setFile, if_neg h, List.lookup_cons]
      have : (p == q) = false := by
        simp only [beq_eq_false_iff_ne, ne_eq]
        exact fun hpq => h hpq.symm
      rw [this]
      exact ih

/-- Write-then-parse round trip for any list of records: reading back
the concatenation of the texts the writer emits for the rows yields
exactly those rows. -/
theorem csvRoundTrip (rows : List (List String)) :
    csvParse (strJoinRows (rows.map csvRow)) = some rows := by
  have hdata : (strJoinRows (rows.map csvRow)).data
      = List.flatten ((rows.map (fun r => r.map String.data)).map rowChars) := by
    rw [strJoinRows_data]
    simp only [List.map_map]
    rfl
  rw [csvParse, hdata]
  rw [parseRecords_inv (rows.map (fun r => r.map String.data))
    (2 * (List.flatten ((rows.map (fun r => r.map String.data)).map rowChars)).length + 2)
    (by have := rowsFuel_le (rows.map (fun r => r.map String.data)); omega)]
  simp only [Option.map_some', Option.some_inj]
  exact maps_mk_data rows

/-- Parsing the concatenation of two written rows yields the two rows. -/
theorem csvParse_two (r1 r2 : List String) :
    csvParse (csvRow r1 ++ csvRow r2) = some [r1, r2] := by
  have h := csvRoundTrip [r1, r2]
  simp only [List.map_cons, List.map_nil, strJoinRows] at h
  rwa [str_append_empty] at h

/-- Appending to a file that already has content in mode a leaves the
previous content in place, writes no header, and adds one row. -/
theorem write_keeps (fs : FS) (fname : String) (header d : List String)
    (c : String) (hc : fs.files.lookup fname = some c) (hne : c ≠ "") :
    (write_to_csv "a" fs fname header d).files.lookup fname
      = some (c ++ csvRow d) := by
  simp only [write_to_csv, hc, Option.getD_some]
  have hm : (if ("a" : String) = "w" then "" else c) = c := if_neg (by decide)
  rw [hm, if_neg hne]
  exact lookup_setFile fs.files fname (c ++ csvRow d)

/-- Appending in mode a to an absent or empty file writes the header
first and then the row. -/
theorem write_fresh (fs : FS) (fname : String) (header d : List String)
    (h : fs.files.lookup fname = none ∨ fs.files.lookup fname = some "") :
    (write_to_csv "a" fs fname header d).files.lookup fname
      = some (csvRow header ++ csvRow d) := by
  have hm : (if ("a" : String) = "w" then "" else "") = "" := if_neg (by decide)
  have hup : (write_to_csv "a" fs fname header d).files.lookup fname
      = some ((("" : String) ++ csvRow header) ++ csvRow d) := by
    rcases h with h | h <;>
      · simp only [write_to_csv, h, Option.getD_some, Option.getD_none]
        rw [hm, if_pos rfl]
        exact lookup_setFile fs.files fname _
  rw [hup, str_empty_append]

/-- Folding further appends over a nonempty file concatenates the
written rows after the existing content, with no header. -/
theorem fold_write_content (fname : String) (header : List String)
    (datas : List (List String)) : ∀ (fs : FS) (c : String),
    fs.files.lookup fname = some c → c ≠ "" →
    ((datas.foldl (fun a d => write_to_csv "a" a fname header d) fs).files.lookup fname)
      = some (c ++ strJoinRows (datas.map csvRow)) := by
  induction datas with
  | nil =>
    intro fs c hc _
    simpa [strJoinRows, str_append_empty] using hc
  | cons d ds ih =>
    intro fs c hc hne
    simp only [List.foldl_cons]
    have hw := write_keeps fs fname header d c hc hne
    have hne2 : c ++ csvRow d ≠ "" := append_csvRow_ne_empty c d
    rw [ih _ _ hw hne2, str_append_assoc]
    simp [strJoinRows]

/-! Concrete demonstration values -/

/-- A configuration accepting type codes 1 and 49 and mapping room r1
to the display name Team A; the remaining options hold the source
defaults. -/
def cfgDemo : Config :=
  { accepted_types := [1, 49]
    chatroom_id_to_name := [("r1", "Team A")]
    log_level := "INFO"
    host := "127.0.0.1"
    port := 8001
    file_encoding := "utf-8-sig"
    file_write_mode := "a"
    date_format := "%Y%m%d%H" }

/-- The timestamp of the worked path example. -/
def demoNow : DateTime := ⟨2024, 3, 5, 14, 27, 0⟩

/-- A fresh world: empty filesystem, no failures. -/
def wDemo : World := ⟨⟨[], []⟩, none, none⟩

/-- A parse oracle for content that is not well-formed markup. -/
def parseNone : String → Except Unit XMLElement := fun _ => Except.error ()

/-- An eligible plain text message of type 1 in room r1. -/
def msgT1 : Msg :=
  ⟨7, 0, "s", 1, "", "bob", "r1", "hello", "", "x", false, false, true⟩

/-- A message whose type 999 is not configured for capture. -/
def msg999 : Msg :=
  ⟨7, 0, "s", 999, "", "mallory", "r1", "hello", "", "x", false, false, false⟩

/-- A type-49 group message carrying structured content. -/
def msg49 : Msg :=
  ⟨7, 0, "s", 49, "", "alice", "r1", "<msg><title>Hello</title></msg>", "",
   "e", false, false, true⟩

/-- The parse oracle for the content of msg49: a msg element holding a
title element with text Hello. -/
def parse49 : String → Except Unit XMLElement :=
  fun _ => Except.ok ⟨"msg", none, [⟨"title", some "Hello", []⟩]⟩

/-- A world whose write step fails with a disk full error. -/
def failWorld : World := ⟨⟨[], []⟩, none, some (WriteFailure.other "disk full")⟩

/-- A parsed root whose title element exists but has absent text. -/
def cexTitleRoot : XMLElement := ⟨"msg", none, [⟨"title", none, []⟩]⟩

/-- A parsed root with no title element anywhere. -/
def demoRootNoTitle : XMLElement := ⟨"msg", none, []⟩

/-- A parsed root with a title element nested two levels down. -/
def demoRootNested : XMLElement :=
  ⟨"msg", some "x", [⟨"a", none, [⟨"title", some "Hello", []⟩]⟩]⟩

/-! Claims -/

/-- C2 counterexample: on a document whose first title element exists
but has absent text, parse_xml_content returns the text value None,
not the literal fallback the claim requires. -/
theorem c2_found_empty_title_cex :
    parse_xml_content (Except.ok cexTitleRoot) = none ∧
    parse_xml_content (Except.ok cexTitleRoot) ≠ some "无标题" := by
  have h : parse_xml_content (Except.ok cexTitleRoot) = none := by
    simp [cexTitleRoot, parse_xml_content, findTitleList]
  exact ⟨h, by simp [h]⟩

/-- C2 amended: parse_xml_content returns the literal parse-error
fallback on malformed input, the literal untitled fallback exactly
when no title element exists, and otherwise the text of the found
element as is, which may be absent or empty. -/
theorem c2_title_extraction_amended (root : XMLElement) :
    parse_xml_content (Except.error ()) = some "XML解析错误" ∧
    (findTitleList root.children = none →
      parse_xml_content (Except.ok root) = some "无标题") ∧
    (∀ t, findTitleList root.children = some t →
      parse_xml_content (Except.ok root) = t.text) := by
  refine ⟨rfl, ?_, ?_⟩
  · intro h; simp [parse_xml_content, h]
  · intro t h; simp [parse_xml_content, h]

/-- C2 witness: the three extractor outcomes at concrete documents,
including a title found two levels deep in document order. -/
theorem c2_title_extraction_amended_witness :
    parse_xml_content (Except.error ()) = some "XML解析错误" ∧
    parse_xml_content (Except.ok demoRootNoTitle) = some "无标题" ∧
    parse_xml_content (Except.ok demoRootNested) = some "Hello" :=
  ⟨(c2_title_extraction_amended demoRootNoTitle).1,
   (c2_title_extraction_amended demoRootNoTitle).2.1
     (by simp [demoRootNoTitle, findTitleList]),
   (c2_title_extraction_amended demoRootNested).2.2 ⟨"title", some "Hello", []⟩
     (by simp [demoRootNested, findTitleList])⟩

/-- C4: a message whose type is not accepted or whose room id is not
mapped makes save_message_to_csv return early with the skipped
outcome and the filesystem exactly as it was: no directory created,
no file created, no content changed. -/
theorem c4_skip_frame (cfg : Config) (parse : String → Except Unit XMLElement)
    (now : DateTime) (w : World) (message : Msg)
    (h : message.type ∉ cfg.accepted_types ∨
      cfg.chatroom_id_to_name.lookup message.roomid = none) :
    save_message_to_csv cfg parse now w message = (SaveOutcome.skipped, w.fs) := by
  simp only [save_message_to_csv]
  rw [if_pos h]

/-- C4 witness: the unconfigured type 999 is skipped and the world
filesystem is returned untouched. -/
theorem c4_skip_frame_witness :
    ((msg999.type ∉ cfgDemo.accepted_types ∨
        cfgDemo.chatroom_id_to_name.lookup msg999.roomid = none) ∧
      save_message_to_csv cfgDemo parseNone demoNow wDemo msg999
        = (SaveOutcome.skipped, wDemo.fs)) :=
  ⟨Or.inl (by decide),
   c4_skip_frame cfgDemo parseNone demoNow wDemo msg999 (Or.inl (by decide))⟩

/-- C6: path resolution uses the single sampled timestamp for both
segments, the directory from its calendar date and the file from the
same date plus the two-digit hour; the worked example for room Team A
at 2024-03-05 14:27:00 yields the stated directory and file. -/
theorem c6_path_resolution (room : String) (now : DateTime) :
    folderPath room now
      = "./" ++ room ++ "/" ++ (pad4 now.year ++ pad2 now.month ++ pad2 now.day) ++ "/" ∧
    fileName room now
      = folderPath room now ++ "messages_" ++
          (pad4 now.year ++ pad2 now.month ++ pad2 now.day ++ pad2 now.hour) ++ ".csv" ∧
    folderPath "Team A" ⟨2024, 3, 5, 14, 27, 0⟩ = "./Team A/20240305/" ∧
    fileName "Team A" ⟨2024, 3, 5, 14, 27, 0⟩
      = "./Team A/20240305/" ++ "messages_2024030514.csv" :=
  ⟨rfl, rfl, by decide, by decide⟩

/-- C8: writing any sequence of string fields as one delimited record
and parsing the written text back with the same dialect returns
exactly the original field values, including fields holding the
delimiter, the quote character, or line breaks. -/
theorem c8_write_parse_roundtrip (fields : List String) :
    csvParse (csvRow fields) = some [fields] := by
  have h := csvRoundTrip [fields]
  simp only [List.map_cons, List.map_nil, strJoinRows] at h
  rwa [str_append_empty] at h

/-- C1: the code writes the five-name header for a type-49 group
message but the data row it appends holds only four values, the raw
content slot being absent: evaluation of the pipeline at the failing
input, showing the written file parses back as the 5-field header
followed by a 4-field row. -/
theorem c1_row_has_four_fields :
    (save_message_to_csv cfgDemo parse49 demoNow wDemo msg49).1
      = SaveOutcome.saved ∧
    ((save_message_to_csv cfgDemo parse49 demoNow wDemo msg49).2.files.lookup
        (fileName "Team A" demoNow)).getD ""
      = csvRow ["type", "sender", "title", "content", "extra"] ++
          csvRow ["49", "alice", "Hello", "e"] ∧
    csvParse (csvRow ["type", "sender", "title", "content", "extra"] ++
        csvRow ["49", "alice", "Hello", "e"])
      = some [["type", "sender", "title", "content", "extra"],
              ["49", "alice", "Hello", "e"]] ∧
    (["49", "alice", "Hello", "e"] : List String).length = 4 ∧
    (["type", "sender", "title", "content", "extra"] : List String).length = 5 := by
  have htitle : parse_xml_content (parse49 msg49.content) = some "Hello" := by
    simp [parse49, parse_xml_content, findTitleList]
  simp only [save_message_to_csv, htitle]
  decide

/-- The error log line save_message_to_csv emits for a given failure
oracle at a given target folder: the makedirs failure when the folder
is missing and makedirs raises, else the open-or-write failure. -/
def storageFailureLog (w : World) (folder : String) : Option String :=
  match (if folder ∈ w.fs.dirs then none else w.makedirsError) with
  | some e => some ("[ERROR] An error occurred: " ++ e)
  | none => w.writeError.map failureLog

/-- C3 counterexample: on an eligible message whose write step fails
with a disk full error, the pipeline merely logs the error and the
handler still answers with the fixed success body, not a server
error. -/
theorem c3_success_ack_despite_failure_cex :
    (save_message_to_csv cfgDemo parseNone demoNow failWorld msgT1).1
      = SaveOutcome.errorLogged "[ERROR] An error occurred: disk full" ∧
    (msg_cb cfgDemo parseNone demoNow failWorld msgT1).1
      = CbResult.ok ⟨0, "成功"⟩ := by
  decide

/-- C3 amended: whenever directory creation or the open-and-write
step fails during persistence of an eligible message, the failure is
caught inside save_message_to_csv, which returns normally after
logging the corresponding error line, and msg_cb still returns the
success acknowledgement; no server error is produced and nothing is
retried. -/
theorem c3_storage_failure_logged_not_propagated (cfg : Config)
    (parse : String → Except Unit XMLElement) (now : DateTime) (w : World)
    (m : Msg) (rn L : String)
    (h1 : m.type ∈ cfg.accepted_types)
    (h2 : cfg.chatroom_id_to_name.lookup m.roomid = some rn)
    (h3 : storageFailureLog w (folderPath rn now) = some L) :
    (save_message_to_csv cfg parse now w m).1 = SaveOutcome.errorLogged L ∧
    (msg_cb cfg parse now w m).1 = CbResult.ok ⟨0, "成功"⟩ := by
  refine ⟨?_, rfl⟩
  simp only [save_message_to_csv]
  rw [if_neg (by simp [h1, h2])]
  simp only [h2, Option.getD_some]
  cases hmk : (if folderPath rn now ∈ w.fs.dirs then none else w.makedirsError) with
  | some e =>
    simp only [storageFailureLog, hmk] at h3
    simp only [Option.some_inj] at h3
    simp [h3]
  | none =>
    cases hw : w.writeError with
    | none =>
      exfalso
      simp [storageFailureLog, hmk, hw] at h3
    | some f =>
      simp only [storageFailureLog, hmk, hw, Option.map_some'] at h3
      simp only [Option.some_inj] at h3
      simp [h3]

/-- C3 witness: the amended behaviour at the concrete disk full
world, with every hypothesis discharged. -/
theorem c3_storage_failure_logged_not_propagated_witness :
    (msgT1.type ∈ cfgDemo.accepted_types) ∧
    (cfgDemo.chatroom_id_to_name.lookup msgT1.roomid = some "Team A") ∧
    (storageFailureLog failWorld (folderPath "Team A" demoNow)
      = some "[ERROR] An error occurred: disk full") ∧
    (save_message_to_csv cfgDemo parseNone demoNow failWorld msgT1).1
      = SaveOutcome.errorLogged "[ERROR] An error occurred: disk full" ∧
    (msg_cb cfgDemo parseNone demoNow failWorld msgT1).1
      = CbResult.ok ⟨0, "成功"⟩ :=
  ⟨by decide, by decide, by decide,
   (c3_storage_failure_logged_not_propagated cfgDemo parseNone demoNow failWorld
     msgT1 "Team A" "[ERROR] An error occurred: disk full"
     (by decide) (by decide) (by decide)).1,
   (c3_storage_failure_logged_not_propagated cfgDemo parseNone demoNow failWorld
     msgT1 "Team A" "[ERROR] An error occurred: disk full"
     (by decide) (by decide) (by decide)).2⟩

/-- C5: every eligible message outside the type-49 group shape is
written as the four-field row type, sender, content, extra, with the
raw content in the content slot, and the title extraction oracle is
never consulted: the result is identical under any two parse
oracles. -/
theorem c5_four_field_row (cfg : Config)
    (parse p1 p2 : String → Except Unit XMLElement) (now : DateTime)
    (w : World) (m : Msg) (rn : String)
    (h1 : m.type ∈ cfg.accepted_types)
    (h2 : cfg.chatroom_id_to_name.lookup m.roomid = some rn)
    (h3 : ¬(m.type = 49 ∧ m.is_group = true)) :
    save_message_to_csv cfg parse now ⟨⟨[], []⟩, none, none⟩ m
      = (SaveOutcome.saved,
          ⟨[folderPath rn now],
           [(fileName rn now,
             csvRow ["type", "sender", "content", "extra"] ++
               csvRow [toString m.type, m.sender, m.content, m.extra])]⟩) ∧
    csvParse (csvRow ["type", "sender", "content", "extra"] ++
        csvRow [toString m.type, m.sender, m.content, m.extra])
      = some [["type", "sender", "content", "extra"],
              [toString m.type, m.sender, m.content, m.extra]] ∧
    save_message_to_csv cfg p1 now w m = save_message_to_csv cfg p2 now w m := by
  refine ⟨?_, csvParse_two _ _, ?_⟩
  · simp only [save_message_to_csv, write_to_csv]
    rw [if_neg (by simp [h1, h2])]
    simp only [h2, Option.getD_some]
    simp [h3, pyTruthy, setFile, List.lookup, ite_self, str_empty_append]
  · have e1 : (if m.type = 49 ∧ m.is_group = true then
        parse_xml_content (p1 m.content) else some "") = some "" := if_neg h3
    have e2 : (if m.type = 49 ∧ m.is_group = true then
        parse_xml_content (p2 m.content) else some "") = some "" := if_neg h3
    simp only [save_message_to_csv, e1, e2]

/-- C5 witness: the type-1 message is written as a four-field row on a
fresh filesystem, and two different parse oracles give one result. -/
theorem c5_four_field_row_witness :
    (msgT1.type ∈ cfgDemo.accepted_types) ∧
    (cfgDemo.chatroom_id_to_name.lookup msgT1.roomid = some "Team A") ∧
    ¬(msgT1.type = 49 ∧ msgT1.is_group = true) ∧
    save_message_to_csv cfgDemo parseNone demoNow ⟨⟨[], []⟩, none, none⟩ msgT1
      = (SaveOutcome.saved,
          ⟨[folderPath "Team A" demoNow],
           [(fileName "Team A" demoNow,
             csvRow ["type", "sender", "content", "extra"] ++
               csvRow [toString msgT1.type, msgT1.sender, msgT1.content, msgT1.extra])]⟩) ∧
    save_message_to_csv cfgDemo parse49 demoNow wDemo msgT1
      = save_message_to_csv cfgDemo parseNone demoNow wDemo msgT1 :=
  ⟨by decide, by decide, by decide,
   (c5_four_field_row cfgDemo parseNone parse49 parseNone demoNow wDemo msgT1
     "Team A" (by decide) (by decide) (by decide)).1,
   (c5_four_field_row cfgDemo parseNone parse49 parseNone demoNow wDemo msgT1
     "Team A" (by decide) (by decide) (by decide)).2.2⟩

/-- C7: any positive number of mode-a appends against a target file
that starts absent or empty leaves a file that parses back as exactly
one header row followed by the data rows in append order: only the
first append sees position zero, so no later append duplicates the
header. -/
theorem c7_single_header (header : List String) (datas : List (List String))
    (fs : FS) (fname : String)
    (h1 : datas ≠ [])
    (h2 : fs.files.lookup fname = none ∨ fs.files.lookup fname = some "") :
    csvParse
        (((datas.foldl (fun a d => write_to_csv "a" a fname header d) fs).files.lookup
            fname).getD "")
      = some (header :: datas) := by
  cases datas with
  | nil => exact absurd rfl h1
  | cons d ds =>
    simp only [List.foldl_cons]
    have hw := write_fresh fs fname header d h2
    have hfold := fold_write_content fname header ds _ _ hw
      (append_csvRow_ne_empty _ _)
    rw [hfold, Option.getD_some, str_append_assoc]
    have h := csvRoundTrip (header :: d :: ds)
    simp only [List.map_cons, strJoinRows] at h
    exact h

/-- C7 witness: two appends to a fresh file yield one header and the
two data rows, in order. -/
theorem c7_single_header_witness :
    ([["1", "a"], ["2", "b,c"]] ≠ ([] : List (List String))) ∧
    csvParse
        ((([["1", "a"], ["2", "b,c"]].foldl
            (fun a d => write_to_csv "a" a "f.csv" ["h1", "h2"] d)
            (⟨[], []⟩ : FS)).files.lookup "f.csv").getD "")
      = some [["h1", "h2"], ["1", "a"], ["2", "b,c"]] :=
  ⟨by decide,
   c7_single_header ["h1", "h2"] [["1", "a"], ["2", "b,c"]] ⟨[], []⟩ "f.csv"
     (by decide) (Or.inl rfl)⟩

/-- C9 counterexample: under the interleaving in which both handlers
open the still-empty target file before either writes, both observe
position zero and both write the header, so the resulting file parses
with a data row, the duplicated header, that matches the field
values of neither of the two messages. -/
theorem c9_overlapping_appends_cex :
    csvParse (runSched [true, false, true, true, false, false] "" ⟨0, 0⟩ ⟨0, 0⟩
        ["type", "sender", "content", "extra"] ["1", "alice", "hi", "x"]
        ["type", "sender", "content", "extra"] ["1", "bob", "yo", "y"])
      = some [["type", "sender", "content", "extra"], ["1", "alice", "hi", "x"],
              ["type", "sender", "content", "extra"], ["1", "bob", "yo", "y"]] ∧
    (["type", "sender", "content", "extra"] : List String)
        ≠ ["1", "alice", "hi", "x"] ∧
    (["type", "sender", "content", "extra"] : List String)
        ≠ ["1", "bob", "yo", "y"] := by
  decide

/-- C9 amended: when the two appends do not overlap, the first
completing before the second opens, the shared file parses back as
the header followed by the two data rows, each matching its message;
but overlapped schedules can duplicate the header row, so the claim
fails for concurrent executions in general. -/
theorem c9_serialized_appends (hdr dA dB : List String) :
    csvParse (runSched [true, true, true, false, false, false] "" ⟨0, 0⟩ ⟨0, 0⟩
        hdr dA hdr dB)
      = some [hdr, dA, dB] := by
  have hrt := csvRoundTrip [hdr, dA, dB]
  simp only [List.map_cons, List.map_nil, strJoinRows] at hrt
  rw [str_append_empty] at hrt
  simp [runSched, stepCo, csvRow_length_ne]
  rw [str_append_assoc]
  exact hrt

/-- C10: two configurations that differ only in the date_format
option drive save_message_to_csv and msg_cb identically on every
message, world, timestamp, and parse outcome: the loaded date_format
value is never read during path derivation or anywhere else. -/
theorem c10_date_format_noninterference (cfg : Config) (d1 d2 : String)
    (parse : String → Except Unit XMLElement) (now : DateTime) (w : World)
    (m : Msg) :
    save_message_to_csv { cfg with date_format := d1 } parse now w m
      = save_message_to_csv { cfg with date_format := d2 } parse now w m ∧
    msg_cb { cfg with date_format := d1 } parse now w m
      = msg_cb { cfg with date_format := d2 } parse now w m :=
  ⟨rfl, rfl⟩

end WechatRobot
